import Mathlib

/-!
Shallow embedding of the viewport-reactive spatial aggregation and
value-coloring engine in src/dashboard/src/components/PriceMap.tsx
(store map of the Kroger grocery price index dashboard), together with
the price-stats pipeline of the App component in the same file.

Modelling conventions:
* JS numbers are modelled as exact rationals.
* Math.round x is modelled as the floor of x + 1/2 (JS rounds half-up,
  toward positive infinity).
* Fields typed number | null (or optional) are Option values;
  a typeof v === "number" test is v.isSome.
* Hex color strings are lists of characters.
* A JS Map (which preserves insertion order) is an association list to
  which a new key is appended at the end; updating an existing key
  rewrites its entry in place.
* A JS numeric sort is modelled by insertion sort with the
  less-or-equal relation: the observable contract of a comparator sort
  on rationals is a sorted permutation, and equal rationals are
  indistinguishable, so this is exact.
-/

/-- JS Math.round: round half toward positive infinity. -/
def jsRound (q : ℚ) : ℤ := ⌊q + 1 / 2⌋

/-- Entity record (StorePoint interface, PriceMap.tsx lines 13-26). -/
structure StorePoint where
  location_id : String
  name : String
  chain : Option String
  city : Option String
  state : Option String
  latitude : Option ℚ
  longitude : Option ℚ
  regular_price : Option ℚ
  promo_price : Option ℚ
  price_date : Option String
deriving DecidableEq, Repr

/-- PriceMap lines 144-147: filter out stores with missing coordinates. -/
def validPoints (stores : List StorePoint) : List StorePoint :=
  stores.filter (fun s => s.latitude.isSome && s.longitude.isSome)

/-- The coordinate reads (s.latitude as number) on already-filtered points. -/
def latOf (s : StorePoint) : ℚ := s.latitude.getD 0

/-- The coordinate reads (s.longitude as number) on already-filtered points. -/
def lngOf (s : StorePoint) : ℚ := s.longitude.getD 0

/-- Cluster record (PriceMap.tsx lines 60-64). -/
structure Cluster where
  lat : ℚ
  lng : ℚ
  stores : List StorePoint
deriving DecidableEq, Repr

/-- Grid size step function of zoom (PriceMap.tsx lines 217-224),
used only in the zoom < 11 branch. -/
def gridSizeFor (zoom : ℤ) : ℚ :=
  if zoom ≤ 4 then 6 else if zoom ≤ 7 then 7 / 2 else 3 / 2

/-- JS Number.prototype.toFixed(2), as the integer count of hundredths:
the ECMA algorithm picks the integer n minimizing the distance of n/100
to the value, ties to the larger n.  The toFixed(2) string is determined
by (and determines) this integer, so integer equality models string
equality of the formatted coordinate. -/
def fix2 (q : ℚ) : ℤ := ⌊q * 100 + 1 / 2⌋

/-- Composite grid-cell key of a coordinate pair (PriceMap.tsx lines
232-234).  The template string keyLat.toFixed(2) ++ "_" ++
keyLng.toFixed(2) is injective in the pair of fix2 integers, so the key
is modelled as that pair. -/
def cellKey (g : ℚ) (lat lng : ℚ) : ℤ × ℤ :=
  (fix2 ((jsRound (lat / g) : ℚ) * g), fix2 ((jsRound (lng / g) : ℚ) * g))

/-- One iteration of the clustering loop body (PriceMap.tsx lines
236-249): append a fresh singleton cluster for an unseen key, otherwise
push the store and update the centroid by the running average with
n = the member count after insertion. -/
def addToClusterMap (m : List ((ℤ × ℤ) × Cluster)) (key : ℤ × ℤ)
    (lat lng : ℚ) (s : StorePoint) : List ((ℤ × ℤ) × Cluster) :=
  match m with
  | [] => [(key, ⟨lat, lng, [s]⟩)]
  | (k, c) :: rest =>
    if k = key then
      let stores' := c.stores ++ [s]
      let n : ℚ := (stores'.length : ℚ)
      (k, ⟨c.lat + (lat - c.lat) / n, c.lng + (lng - c.lng) / n, stores'⟩) :: rest
    else
      (k, c) :: addToClusterMap rest key lat lng s

/-- The full clustering loop over points (PriceMap.tsx lines 226-250). -/
def buildClusterMap (g : ℚ) (points : List StorePoint) :
    List ((ℤ × ℤ) × Cluster) :=
  points.foldl
    (fun m s => addToClusterMap m (cellKey g (latOf s) (lngOf s)) (latOf s) (lngOf s) s)
    []

/-- Output of the clusters/individualPoints useMemo (PriceMap.tsx
lines 199-257). -/
structure ClassifyResult where
  clusters : List Cluster
  individualPoints : List StorePoint
deriving DecidableEq, Repr

/-- The classify step (PriceMap.tsx lines 199-257): empty input short
circuit, individual mode at zoom >= 11, grid clustering below. -/
def classify (stores : List StorePoint) (zoom : ℤ) : ClassifyResult :=
  let points := validPoints stores
  if points.length = 0 then
    ⟨[], []⟩
  else if 11 ≤ zoom then
    ⟨[], points⟩
  else
    ⟨(buildClusterMap (gridSizeFor zoom) points).map Prod.snd, []⟩

/-- Value extraction in the priceRange useMemo (PriceMap.tsx lines
156-161): promo price if numeric, else regular price if numeric, else
null. -/
def rangeValue (s : StorePoint) : Option ℚ :=
  match s.promo_price with
  | some v => some v
  | none =>
    match s.regular_price with
    | some v => some v
    | none => none

/-- Value extraction in getPriceColor (PriceMap.tsx lines 175-180):
promo price if numeric, else regular price if numeric, else null. -/
def basePriceOf (s : StorePoint) : Option ℚ :=
  match s.promo_price with
  | some v => some v
  | none =>
    match s.regular_price with
    | some v => some v
    | none => none

/-- Value extraction in the priceStats useMemo (App, PriceMap.tsx lines
1124-1129): promo price if numeric, else regular price if numeric, else
null. -/
def statsValue (s : StorePoint) : Option ℚ :=
  match s.promo_price with
  | some v => some v
  | none =>
    match s.regular_price with
    | some v => some v
    | none => none

/-- Modelled from the spec: EffectiveValue, derived per entity as the
promo value if present and numeric, else the regular value if present
and numeric, else absent. -/
def effectiveValueSpec (s : StorePoint) : Option ℚ :=
  s.promo_price.orElse fun _ => s.regular_price

/-- The priceRange useMemo (PriceMap.tsx lines 153-171): min and max of
the extracted values, both null when no point has a value. -/
def priceRange (points : List StorePoint) : Option ℚ × Option ℚ :=
  match points.filterMap rangeValue with
  | [] => (none, none)
  | p :: rest => (some (rest.foldl min p), some (rest.foldl max p))

/-- Clamp of the interpolation parameter (PriceMap.tsx line 119). -/
def clamp01 (t : ℚ) : ℚ := max 0 (min 1 t)

/-- Value of a single hex digit, as accepted by JS parseInt(-, 16). -/
def hexDigitVal (c : Char) : Option ℕ :=
  if '0' ≤ c ∧ c ≤ '9' then some (c.toNat - '0'.toNat)
  else if 'a' ≤ c ∧ c ≤ 'f' then some (c.toNat - 'a'.toNat + 10)
  else if 'A' ≤ c ∧ c ≤ 'F' then some (c.toNat - 'A'.toNat + 10)
  else none

/-- JS parseInt(slice, 16) on a two-character slice; none models NaN. -/
def parseHexByte (cs : List Char) : Option ℕ :=
  match cs with
  | [c1, c2] =>
    match hexDigitVal c1, hexDigitVal c2 with
    | some h, some l => some (16 * h + l)
    | _, _ => none
  | _ => none

/-- JS String.prototype.replace("#", ""): remove the first occurrence
of the hash character (PriceMap.tsx lines 120-121). -/
def replaceFirstHash : List Char → List Char
  | [] => []
  | c :: rest => if c = '#' then rest else c :: replaceFirstHash rest

/-- Lowercase hex digit character, as produced by JS toString(16). -/
def hexDigitChar (n : ℕ) : Char :=
  if n < 10 then Char.ofNat (48 + n) else Char.ofNat (87 + n)

/-- Hex rendering of a natural number, as JS toString(16). -/
def natToHex (n : ℕ) : List Char :=
  if n < 16 then [hexDigitChar n]
  else natToHex (n / 16) ++ [hexDigitChar (n % 16)]
decreasing_by exact Nat.div_lt_self (by omega) (by omega)

/-- JS padStart(2, "0") (PriceMap.tsx lines 135-137). -/
def padStart2 (l : List Char) : List Char :=
  if l.length < 2 then List.replicate (2 - l.length) '0' ++ l else l

/-- Rendering of one interpolated channel, r.toString(16).padStart(2,
"0").  Every reachable channel value lies between the two parsed
endpoint bytes, hence in 0..255 (proved below), so the integer is cast
through toNat. -/
def toHexByte (n : ℤ) : List Char := padStart2 (natToHex n.toNat)

/-- lerpColor (PriceMap.tsx lines 118-140): clamp t, parse both
endpoint colors, round each linearly interpolated channel, render.
none models the NaN poisoning of parseInt on a malformed endpoint;
both call sites pass well-formed 7-character hex colors. -/
def lerpColor (startHex endHex : List Char) (t : ℚ) : Option (List Char) :=
  let clampT := clamp01 t
  let sh := replaceFirstHash startHex
  let eh := replaceFirstHash endHex
  match parseHexByte (sh.take 2), parseHexByte ((sh.drop 2).take 2),
        parseHexByte ((sh.drop 4).take 2), parseHexByte (eh.take 2),
        parseHexByte ((eh.drop 2).take 2), parseHexByte ((eh.drop 4).take 2) with
  | some sr, some sg, some sb, some er, some eg, some eb =>
    let r := jsRound ((sr : ℚ) + ((er : ℚ) - (sr : ℚ)) * clampT)
    let g := jsRound ((sg : ℚ) + ((eg : ℚ) - (sg : ℚ)) * clampT)
    let b := jsRound ((sb : ℚ) + ((eb : ℚ) - (sb : ℚ)) * clampT)
    some ('#' :: (toHexByte r ++ toHexByte g ++ toHexByte b))
  | _, _, _, _, _, _ => none

/-- Neutral fallback color "#007bff" (PriceMap.tsx line 189). -/
def fallbackColor : List Char := ['#', '0', '0', '7', 'b', 'f', 'f']

/-- Low endpoint "#2ecc71" (green, PriceMap.tsx line 194). -/
def greenHex : List Char := ['#', '2', 'e', 'c', 'c', '7', '1']

/-- High endpoint "#e74c3c" (red, PriceMap.tsx line 194). -/
def redHex : List Char := ['#', 'e', '7', '4', 'c', '3', 'c']

/-- getPriceColor (PriceMap.tsx lines 174-195): fallback when the value
is absent, the range is absent, or the range is degenerate; otherwise
the green-to-red interpolation at t = (value - min) / (max - min).
The getD arm is never reached: lerpColor succeeds on the concrete
well-formed endpoints (proved below). -/
def getPriceColor (range : Option ℚ × Option ℚ) (s : StorePoint) : List Char :=
  match basePriceOf s, range.1, range.2 with
  | some bp, some mn, some mx =>
    if mx = mn then fallbackColor
    else (lerpColor greenHex redHex ((bp - mn) / (mx - mn))).getD fallbackColor
  | _, _, _ => fallbackColor

/-- The clamped interpolation parameter that positions the color of a
store on the green-to-red gradient: the t of getPriceColor (PriceMap.tsx
line 192) after the clamp applied inside lerpColor (line 119), none in
the fallback cases.  A lemma below ties it to getPriceColor. -/
def colorT (range : Option ℚ × Option ℚ) (s : StorePoint) : Option ℚ :=
  match basePriceOf s, range.1, range.2 with
  | some bp, some mn, some mx =>
    if mx = mn then none else some (clamp01 ((bp - mn) / (mx - mn)))
  | _, _, _ => none

/-- App, lines 1102-1114: the final set of stores handed to the map and
to priceStats; with a product selected, only stores with a price. -/
def storesForMap (selectedProductUpc : String) (storesWithPrice : List StorePoint) :
    List StorePoint :=
  if selectedProductUpc = "" then storesWithPrice
  else storesWithPrice.filter (fun s => s.promo_price.isSome || s.regular_price.isSome)

/-- Rounding of a value to 2 decimals before aggregation (App,
PriceMap.tsx line 1133). -/
def round2 (q : ℚ) : ℚ := (jsRound (q * 100) : ℚ) / 100

/-- countsMap.set(price, (countsMap.get(price) ?? 0) + 1) on the
insertion-ordered map (App, PriceMap.tsx line 1135). -/
def bumpCount (m : List (ℚ × ℕ)) (p : ℚ) : List (ℚ × ℕ) :=
  match m with
  | [] => [(p, 1)]
  | (k, c) :: rest => if k = p then (k, c + 1) :: rest else (k, c) :: bumpCount rest p

/-- Result record of the priceStats useMemo (App, PriceMap.tsx lines
1157-1164). -/
structure PriceStats where
  min : ℚ
  median : ℚ
  max : ℚ
  mean : ℚ
  count : ℕ
  distribution : List (ℚ × ℕ)
deriving DecidableEq, Repr

/-- values.sort((a, b) => a - b) (App, PriceMap.tsx line 1141). -/
def sortAsc (l : List ℚ) : List ℚ := List.insertionSort (· ≤ ·) l

instance : DecidableRel (fun (a b : ℚ × ℕ) => a.1 ≤ b.1) :=
  fun a b => inferInstanceAs (Decidable (a.1 ≤ b.1))

/-- .sort((a, b) => a.price - b.price) on the distribution entries
(App, PriceMap.tsx line 1155). -/
def sortPairsAsc (l : List (ℚ × ℕ)) : List (ℚ × ℕ) :=
  List.insertionSort (fun a b => a.1 ≤ b.1) l

/-- The values list accumulated by the priceStats loop (App,
PriceMap.tsx lines 1120-1137): each entity's effective value, rounded
to 2 decimals, in entity order; entities without a value contribute
nothing. -/
def roundedValues (stores : List StorePoint) : List ℚ :=
  stores.filterMap fun s => (statsValue s).map round2

/-- The priceStats useMemo (App, PriceMap.tsx lines 1117-1165). -/
def priceStats (selectedProductUpc : String) (stores : List StorePoint) :
    Option PriceStats :=
  if selectedProductUpc = "" then none
  else
    let values := roundedValues stores
    let countsMap := values.foldl bumpCount []
    if values.length = 0 then none
    else
      let sorted := sortAsc values
      let mid := sorted.length / 2
      let median :=
        if sorted.length % 2 = 1 then sorted.getD mid 0
        else (sorted.getD (mid - 1) 0 + sorted.getD mid 0) / 2
      some
        { min := sorted.headD 0
          median := median
          max := sorted.getLastD 0
          mean := sorted.foldl (· + ·) 0 / (sorted.length : ℚ)
          count := sorted.length
          distribution := sortPairsAsc countsMap }

/-- Normalized horizontal position of a distribution bucket's marker on
the gradient bar (App, PriceMap.tsx lines 1324-1332): the marker is
skipped when max = min, otherwise placed at the clamped
(price - min) / (max - min); the CSS percentage is that number times
100. -/
def markerT (stats : PriceStats) (bucketPrice : ℚ) : Option ℚ :=
  if stats.max = stats.min then none
  else some (clamp01 ((bucketPrice - stats.min) / (stats.max - stats.min)))

/-- The incremental running-average centroid of a member list, exactly
as the clustering loop maintains it for one grid cell (PriceMap.tsx
lines 238-248): start at the first member's coordinates, then each
subsequent member moves the centroid by (coord - centroid) / n with n
the member count after insertion. -/
def centroidStep (acc : (ℚ × ℚ) × ℕ) (s : StorePoint) : (ℚ × ℚ) × ℕ :=
  let n := acc.2 + 1
  ((acc.1.1 + (latOf s - acc.1.1) / (n : ℚ),
    acc.1.2 + (lngOf s - acc.1.2) / (n : ℚ)), n)

/-- Centroid produced by feeding a member list through the running
average, none for the empty list. -/
def runningCentroid : List StorePoint → Option (ℚ × ℚ)
  | [] => none
  | s :: rest => some (rest.foldl centroidStep ((latOf s, lngOf s), 1)).1

/-! Example entities used by the concrete instances below. -/

/-- Convenience constructor for example stores. -/
def exStore (id : String) (lat lng : Option ℚ) (reg promo : Option ℚ) : StorePoint :=
  ⟨id, id, none, none, none, lat, lng, reg, promo, none⟩

/-- C5: the effective-value precedence rule (promo value if present and
numeric, else regular value if present and numeric, else absent) is
applied identically by the color-range computation, the per-entity
color function and the stats computation, and all three agree with the
spec's EffectiveValue definition: the value-extraction functions are
extensionally equal on every entity. -/
theorem effectiveValue_extractors_agree (s : StorePoint) :
    rangeValue s = basePriceOf s ∧ basePriceOf s = statsValue s ∧
      statsValue s = effectiveValueSpec s := by
  refine ⟨rfl, rfl, ?_⟩
  cases hp : s.promo_price <;> cases hr : s.regular_price <;>
    simp [statsValue, effectiveValueSpec, Option.orElse, hp, hr]

/-- C2: whenever zoom is at least 11, the classify step returns an
empty cluster list and its individual points are exactly the
geometry-valid entities, in input order, for any input. -/
theorem classify_individual_mode (stores : List StorePoint) (zoom : ℤ)
    (h : 11 ≤ zoom) :
    classify stores zoom = ⟨[], validPoints stores⟩ := by
  unfold classify
  rcases eq_or_ne (validPoints stores).length 0 with hp | hp
  · rw [if_pos hp, List.length_eq_zero.mp hp]
  · rw [if_neg hp, if_pos h]

/-- Closed instance of classify_individual_mode at zoom 11 on a list
with one geometry-valid and one geometry-less store. -/
theorem classify_individual_mode_witness :
    classify
        [exStore "a" (some 40) (some (-74)) (some 2) none,
         exStore "b" none none (some 3) none] 11 =
      ⟨[], validPoints
        [exStore "a" (some 40) (some (-74)) (some 2) none,
         exStore "b" none none (some 3) none]⟩ :=
  classify_individual_mode _ 11 (by decide)

/-- C8: the stats computation returns null exactly when no value-bearing
selection is active (empty selected product id) or no entity in scope
yields an effective value; otherwise it returns a populated record. -/
theorem priceStats_eq_none_iff (sel : String) (stores : List StorePoint) :
    priceStats sel stores = none ↔
      (sel = "" ∨ ∀ s ∈ stores, statsValue s = none) := by
  unfold priceStats
  rcases eq_or_ne sel "" with hsel | hsel
  · simp [hsel]
  · rw [if_neg hsel]
    rcases eq_or_ne (roundedValues stores).length 0 with hlen | hlen
    · rw [if_pos hlen]
      simp only [hsel, false_or, true_iff]
      intro s hs
      have h0 := List.filterMap_eq_nil_iff.mp (List.length_eq_zero.mp hlen) s hs
      exact Option.map_eq_none'.mp h0
    · rw [if_neg hlen]
      show some _ = none ↔ _
      constructor
      · intro h
        exact (Option.some_ne_none _ h).elim
      · rintro (h | hall)
        · exact absurd h hsel
        · refine absurd ?_ hlen
          rw [List.length_eq_zero, roundedValues, List.filterMap_eq_nil_iff]
          intro s hs
          rw [hall s hs]
          rfl

/-! Case equations of classify, and the flatten permutation of the
cluster map, shared by several theorems below. -/

theorem classify_eq_empty (stores : List StorePoint) (zoom : ℤ)
    (hp : validPoints stores = []) : classify stores zoom = ⟨[], []⟩ := by
  unfold classify
  rw [hp]
  rfl

theorem classify_eq_indiv (stores : List StorePoint) (zoom : ℤ)
    (hp : (validPoints stores).length ≠ 0) (hz : 11 ≤ zoom) :
    classify stores zoom = ⟨[], validPoints stores⟩ := by
  unfold classify
  rw [if_neg hp, if_pos hz]

theorem classify_eq_clustered (stores : List StorePoint) (zoom : ℤ)
    (hp : (validPoints stores).length ≠ 0) (hz : ¬ 11 ≤ zoom) :
    classify stores zoom =
      ⟨(buildClusterMap (gridSizeFor zoom) (validPoints stores)).map Prod.snd, []⟩ := by
  unfold classify
  rw [if_neg hp, if_neg hz]

theorem flatten_addToClusterMap (m : List ((ℤ × ℤ) × Cluster)) (key : ℤ × ℤ)
    (lat lng : ℚ) (s : StorePoint) :
    (((addToClusterMap m key lat lng s).map fun e => e.2.stores).flatten).Perm
      ((m.map fun e => e.2.stores).flatten ++ [s]) := by
  induction m with
  | nil => simp [addToClusterMap]
  | cons e rest ih =>
    obtain ⟨k, c⟩ := e
    rcases eq_or_ne k key with hk | hk
    · simp only [addToClusterMap, if_pos hk, List.map_cons, List.flatten_cons]
      rw [List.append_assoc, List.append_assoc]
      exact List.Perm.append_left c.stores List.perm_append_comm
    · simp only [addToClusterMap, if_neg hk, List.map_cons, List.flatten_cons]
      refine (List.Perm.append_left c.stores ih).trans ?_
      rw [List.append_assoc]

theorem flatten_foldl_addToClusterMap (g : ℚ) (pts : List StorePoint) :
    ∀ m : List ((ℤ × ℤ) × Cluster),
      (((pts.foldl
          (fun m s =>
            addToClusterMap m (cellKey g (latOf s) (lngOf s)) (latOf s) (lngOf s) s)
          m).map fun e => e.2.stores).flatten).Perm
        ((m.map fun e => e.2.stores).flatten ++ pts) := by
  induction pts with
  | nil => simp
  | cons p rest ih =>
    intro m
    simp only [List.foldl_cons]
    refine (ih _).trans ?_
    refine (List.Perm.append_right rest (flatten_addToClusterMap m _ _ _ p)).trans ?_
    rw [List.append_assoc]
    rfl

theorem buildClusterMap_flatten_perm (g : ℚ) (pts : List StorePoint) :
    (((buildClusterMap g pts).map fun e => e.2.stores).flatten).Perm pts := by
  simpa using flatten_foldl_addToClusterMap g pts []

theorem buildClusterMap_ne_nil (g : ℚ) (pts : List StorePoint) (h : pts ≠ []) :
    buildClusterMap g pts ≠ [] := by
  intro hb
  have hperm := buildClusterMap_flatten_perm g pts
  rw [hb] at hperm
  simp only [List.map_nil, List.flatten_nil] at hperm
  exact h hperm.nil_eq.symm

theorem not_mem_validPoints (s : StorePoint)
    (h : s.latitude = none ∨ s.longitude = none) (stores : List StorePoint) :
    s ∉ validPoints stores := by
  intro hm
  have hf := (List.mem_filter.mp hm).2
  rcases h with h | h <;> simp [h] at hf

/-- C1: for every input entity list and every zoom, the two outputs of
classify partition exactly the geometry-valid subset: their members are
a permutation of the valid points (so every valid entity appears in
exactly one output, by multiplicity, and none is omitted); the two
outputs are mutually exclusive; both are empty when the valid subset is
empty, and exactly one is non-empty otherwise; and an entity with a
null coordinate appears in neither output. -/
theorem classify_partitions_valid (stores : List StorePoint) (zoom : ℤ) :
    (((classify stores zoom).individualPoints ++
        ((classify stores zoom).clusters.map Cluster.stores).flatten).Perm
      (validPoints stores)) ∧
    ((classify stores zoom).clusters = [] ∨
      (classify stores zoom).individualPoints = []) ∧
    (validPoints stores = [] →
      (classify stores zoom).clusters = [] ∧
        (classify stores zoom).individualPoints = []) ∧
    (validPoints stores ≠ [] →
      ((classify stores zoom).clusters ≠ [] ∧
          (classify stores zoom).individualPoints = []) ∨
        ((classify stores zoom).clusters = [] ∧
          (classify stores zoom).individualPoints ≠ [])) ∧
    (∀ s : StorePoint, s.latitude = none ∨ s.longitude = none →
      s ∉ (classify stores zoom).individualPoints ∧
        ∀ c ∈ (classify stores zoom).clusters, s ∉ c.stores) := by
  rcases eq_or_ne (validPoints stores) [] with hp | hp
  · rw [classify_eq_empty stores zoom hp]
    refine ⟨by simp [hp], Or.inl rfl, fun _ => ⟨rfl, rfl⟩, fun h => absurd hp h, ?_⟩
    intro s _
    exact ⟨by simp, by simp⟩
  · have hp' : (validPoints stores).length ≠ 0 := by
      simpa [List.length_eq_zero] using hp
    by_cases hz : 11 ≤ zoom
    · rw [classify_eq_indiv stores zoom hp' hz]
      refine ⟨by simp, Or.inl rfl, fun h => absurd h hp, fun _ => Or.inr ⟨rfl, hp⟩, ?_⟩
      intro s hs
      exact ⟨not_mem_validPoints s hs stores, by simp⟩
    · rw [classify_eq_clustered stores zoom hp' hz]
      have hflat :
          ((((buildClusterMap (gridSizeFor zoom) (validPoints stores)).map
              Prod.snd).map Cluster.stores).flatten).Perm (validPoints stores) := by
        rw [List.map_map]
        exact buildClusterMap_flatten_perm (gridSizeFor zoom) (validPoints stores)
      refine ⟨by simpa using hflat, Or.inr rfl, fun h => absurd h hp, ?_, ?_⟩
      · intro _
        refine Or.inl ⟨?_, rfl⟩
        simp only [ne_eq, List.map_eq_nil_iff]
        exact buildClusterMap_ne_nil (gridSizeFor zoom) (validPoints stores) hp
      · intro s hs
        refine ⟨by simp, ?_⟩
        intro c hc hmem
        have hsflat : s ∈ (((buildClusterMap (gridSizeFor zoom)
            (validPoints stores)).map Prod.snd).map Cluster.stores).flatten := by
          rw [List.mem_flatten]
          exact ⟨c.stores, List.mem_map_of_mem Cluster.stores hc, hmem⟩
        exact not_mem_validPoints s hs stores (hflat.mem_iff.mp hsflat)

/-! Running-average arithmetic shared by the centroid theorems. -/

theorem runningAvg_step (S x : ℚ) (k : ℕ) (hk : k ≠ 0) :
    S / (k : ℚ) + (x - S / (k : ℚ)) / ((k + 1 : ℕ) : ℚ) =
      (S + x) / ((k + 1 : ℕ) : ℚ) := by
  have hk' : ((k : ℚ)) ≠ 0 := Nat.cast_ne_zero.mpr hk
  have hk1 : (((k + 1 : ℕ)) : ℚ) ≠ 0 := Nat.cast_ne_zero.mpr (Nat.succ_ne_zero k)
  push_cast at hk1 ⊢
  field_simp
  ring

theorem addToClusterMap_centroid (m : List ((ℤ × ℤ) × Cluster)) (key : ℤ × ℤ)
    (s : StorePoint)
    (h : ∀ e ∈ m, e.2.stores ≠ [] ∧
      e.2.lat = (e.2.stores.map latOf).sum / (e.2.stores.length : ℚ) ∧
      e.2.lng = (e.2.stores.map lngOf).sum / (e.2.stores.length : ℚ)) :
    ∀ e ∈ addToClusterMap m key (latOf s) (lngOf s) s,
      e.2.stores ≠ [] ∧
      e.2.lat = (e.2.stores.map latOf).sum / (e.2.stores.length : ℚ) ∧
      e.2.lng = (e.2.stores.map lngOf).sum / (e.2.stores.length : ℚ) := by
  induction m with
  | nil =>
    intro e he
    simp only [addToClusterMap, List.mem_singleton] at he
    subst he
    refine ⟨by simp, by simp, by simp⟩
  | cons hd rest ih =>
    obtain ⟨k, c⟩ := hd
    intro e he
    rcases eq_or_ne k key with hk | hk
    · simp only [addToClusterMap, if_pos hk] at he
      rcases List.mem_cons.mp he with he1 | he2
      · obtain ⟨hne, hlat, hlng⟩ := h (k, c) (List.mem_cons_self _ _)
        have hlen : c.stores.length ≠ 0 := by
          simpa [List.length_eq_zero] using hne
        subst he1
        refine ⟨by simp, ?_, ?_⟩
        · show c.lat + (latOf s - c.lat) / (((c.stores ++ [s]).length : ℕ) : ℚ) = _
          rw [hlat]
          simp only [List.length_append, List.length_singleton, List.map_append,
            List.sum_append, List.map_singleton, List.sum_singleton]
          exact runningAvg_step _ _ _ hlen
        · show c.lng + (lngOf s - c.lng) / (((c.stores ++ [s]).length : ℕ) : ℚ) = _
          rw [hlng]
          simp only [List.length_append, List.length_singleton, List.map_append,
            List.sum_append, List.map_singleton, List.sum_singleton]
          exact runningAvg_step _ _ _ hlen
      · exact h e (List.mem_cons_of_mem _ he2)
    · simp only [addToClusterMap, if_neg hk] at he
      rcases List.mem_cons.mp he with he1 | he2
      · exact h e (he1 ▸ List.mem_cons_self _ _)
      · exact ih (fun e' he' => h e' (List.mem_cons_of_mem _ he')) e he2

theorem buildClusterMap_centroid (g : ℚ) (pts : List StorePoint) :
    ∀ e ∈ buildClusterMap g pts,
      e.2.stores ≠ [] ∧
      e.2.lat = (e.2.stores.map latOf).sum / (e.2.stores.length : ℚ) ∧
      e.2.lng = (e.2.stores.map lngOf).sum / (e.2.stores.length : ℚ) := by
  suffices h : ∀ m, (∀ e ∈ m, e.2.stores ≠ [] ∧
      e.2.lat = (e.2.stores.map latOf).sum / (e.2.stores.length : ℚ) ∧
      e.2.lng = (e.2.stores.map lngOf).sum / (e.2.stores.length : ℚ)) →
      ∀ e ∈ pts.foldl
        (fun m s =>
          addToClusterMap m (cellKey g (latOf s) (lngOf s)) (latOf s) (lngOf s) s)
        m,
        e.2.stores ≠ [] ∧
        e.2.lat = (e.2.stores.map latOf).sum / (e.2.stores.length : ℚ) ∧
        e.2.lng = (e.2.stores.map lngOf).sum / (e.2.stores.length : ℚ) by
    exact h [] (by simp)
  induction pts with
  | nil =>
    intro m hm
    simpa using hm
  | cons p rest ih =>
    intro m hm
    simp only [List.foldl_cons]
    exact ih _ (addToClusterMap_centroid m _ p hm)

theorem foldl_centroidStep (l : List StorePoint) :
    ∀ (S1 S2 : ℚ) (k : ℕ), k ≠ 0 →
      l.foldl centroidStep ((S1 / (k : ℚ), S2 / (k : ℚ)), k) =
        (((S1 + (l.map latOf).sum) / ((k + l.length : ℕ) : ℚ),
          (S2 + (l.map lngOf).sum) / ((k + l.length : ℕ) : ℚ)), k + l.length) := by
  induction l with
  | nil =>
    intro S1 S2 k hk
    simp
  | cons x rest ih =>
    intro S1 S2 k hk
    simp only [List.foldl_cons, centroidStep]
    rw [runningAvg_step S1 (latOf x) k hk, runningAvg_step S2 (lngOf x) k hk]
    rw [ih (S1 + latOf x) (S2 + lngOf x) (k + 1) (Nat.succ_ne_zero k)]
    have hn : k + 1 + rest.length = k + (x :: rest).length := by
      simp [List.length_cons]
      omega
    rw [hn]
    simp [add_assoc]

theorem runningCentroid_eq_mean (l : List StorePoint) (h : l ≠ []) :
    runningCentroid l = some ((l.map latOf).sum / (l.length : ℚ),
      (l.map lngOf).sum / (l.length : ℚ)) := by
  match l with
  | [] => exact absurd rfl h
  | s :: rest =>
    show some (rest.foldl centroidStep ((latOf s, lngOf s), 1)).1 = _
    have h0 : ((latOf s, lngOf s), 1) =
        ((latOf s / ((1 : ℕ) : ℚ), lngOf s / ((1 : ℕ) : ℚ)), 1) := by
      norm_num
    rw [h0, foldl_centroidStep rest (latOf s) (lngOf s) 1 one_ne_zero]
    have hn : 1 + rest.length = (s :: rest).length := by
      simp [List.length_cons]
      omega
    rw [hn]
    simp

/-- C3: in clustered mode every cluster's centroid, as maintained by the
incremental running-average update, equals the exact arithmetic mean of
its members' coordinates; and feeding the same member list through the
running average in any permutation yields the same centroid (arithmetic
is exact over the rationals here, so the equality is exact). -/
theorem cluster_centroid_mean (stores : List StorePoint) (zoom : ℤ)
    (hz : zoom < 11) :
    (∀ c ∈ (classify stores zoom).clusters,
      c.stores ≠ [] ∧
      c.lat = (c.stores.map latOf).sum / (c.stores.length : ℚ) ∧
      c.lng = (c.stores.map lngOf).sum / (c.stores.length : ℚ)) ∧
    (∀ l1 l2 : List StorePoint, l1.Perm l2 →
      runningCentroid l1 = runningCentroid l2) := by
  constructor
  · intro c hc
    rcases eq_or_ne (validPoints stores) [] with hp | hp
    · rw [classify_eq_empty stores zoom hp] at hc
      simp at hc
    · have hp' : (validPoints stores).length ≠ 0 := by
        simpa [List.length_eq_zero] using hp
      have hz' : ¬ 11 ≤ zoom := by omega
      rw [classify_eq_clustered stores zoom hp' hz'] at hc
      obtain ⟨e, he, hce⟩ := List.mem_map.mp hc
      have hP := buildClusterMap_centroid (gridSizeFor zoom) (validPoints stores) e he
      rw [← hce]
      exact hP
  · intro l1 l2 hperm
    rcases eq_or_ne l1 [] with h1 | h1
    · subst h1
      rw [hperm.nil_eq]
    · have h2 : l2 ≠ [] := by
        intro h
        rw [h] at hperm
        exact h1 hperm.eq_nil
      rw [runningCentroid_eq_mean l1 h1, runningCentroid_eq_mean l2 h2,
        hperm.length_eq, (hperm.map latOf).sum_eq, (hperm.map lngOf).sum_eq]

/-- Closed instance of cluster_centroid_mean: the running centroid of
two concrete stores is invariant under swapping them. -/
theorem cluster_centroid_mean_witness :
    runningCentroid
        [exStore "a" (some 40) (some (-74)) none none,
         exStore "b" (some 41) (some (-75)) none none] =
      runningCentroid
        [exStore "b" (some 41) (some (-75)) none none,
         exStore "a" (some 40) (some (-74)) none none] :=
  (cluster_centroid_mean [] 3 (by decide)).2 _ _ (List.Perm.swap _ _ _)

/-- Closed instance of classify_partitions_valid, discharging its
conditional conjuncts at concrete inputs: a singleton valid list at
zoom 3 lands entirely in one output, the empty list gives two empty
outputs, and a coordinate-less store appears in neither. -/
theorem classify_partitions_valid_witness :
    (((classify [exStore "a" (some 40) (some (-74)) none none] 3).clusters ≠ [] ∧
        (classify [exStore "a" (some 40) (some (-74)) none none] 3).individualPoints
          = []) ∨
      ((classify [exStore "a" (some 40) (some (-74)) none none] 3).clusters = [] ∧
        (classify [exStore "a" (some 40) (some (-74)) none none] 3).individualPoints
          ≠ [])) ∧
    ((classify ([] : List StorePoint) 7).clusters = [] ∧
      (classify ([] : List StorePoint) 7).individualPoints = []) ∧
    (exStore "b" none none none none) ∉
      (classify [exStore "a" (some 40) (some (-74)) none none] 3).individualPoints :=
  ⟨(classify_partitions_valid _ 3).2.2.2.1 (by decide),
   (classify_partitions_valid _ 7).2.2.1 (by decide),
   ((classify_partitions_valid _ 3).2.2.2.2 _ (Or.inl rfl)).1⟩

/-! Color interpolation lemmas (ColorMapper). -/

theorem clamp01_nonneg (t : ℚ) : 0 ≤ clamp01 t := le_max_left 0 _

theorem clamp01_le_one (t : ℚ) : clamp01 t ≤ 1 :=
  max_le (by norm_num) (min_le_left 1 t)

theorem lerpColor_green_red (t : ℚ) :
    lerpColor greenHex redHex t =
      some ('#' :: (toHexByte (jsRound ((46 : ℚ) + ((231 : ℚ) - 46) * clamp01 t)) ++
        toHexByte (jsRound ((204 : ℚ) + ((76 : ℚ) - 204) * clamp01 t)) ++
        toHexByte (jsRound ((113 : ℚ) + ((60 : ℚ) - 113) * clamp01 t)))) := rfl

theorem red_channel_bounds (t : ℚ) :
    46 ≤ jsRound ((46 : ℚ) + ((231 : ℚ) - 46) * clamp01 t) ∧
      jsRound ((46 : ℚ) + ((231 : ℚ) - 46) * clamp01 t) ≤ 231 := by
  have h0 := clamp01_nonneg t
  have h1 := clamp01_le_one t
  constructor
  · rw [jsRound]
    refine Int.le_floor.mpr ?_
    push_cast
    nlinarith
  · rw [jsRound]
    have hlt : jsRound ((46 : ℚ) + ((231 : ℚ) - 46) * clamp01 t) < 232 := by
      rw [jsRound]
      refine Int.floor_lt.mpr ?_
      push_cast
      nlinarith
    rw [jsRound] at hlt
    omega

theorem toHexByte_of_ge_16 (n : ℤ) (h1 : 16 ≤ n) (h2 : n ≤ 255) :
    toHexByte n = [hexDigitChar (n.toNat / 16), hexDigitChar (n.toNat % 16)] := by
  have hn1 : 16 ≤ n.toNat := by omega
  have hn2 : n.toNat ≤ 255 := by omega
  unfold toHexByte
  rw [natToHex, if_neg (by omega), natToHex, if_pos (by omega)]
  unfold padStart2
  simp

theorem hexDigitChar_ne_zero (k : ℕ) (h1 : 1 ≤ k) (h2 : k ≤ 15) :
    hexDigitChar k ≠ '0' := by
  interval_cases k <;> decide

theorem lerp_green_red_ne_fallback (t : ℚ) :
    (lerpColor greenHex redHex t).getD fallbackColor ≠ fallbackColor := by
  rw [lerpColor_green_red]
  simp only [Option.getD_some]
  intro hEq
  obtain ⟨hb1, hb2⟩ := red_channel_bounds t
  rw [toHexByte_of_ge_16 (jsRound ((46 : ℚ) + ((231 : ℚ) - 46) * clamp01 t))
    (by omega) (by omega)] at hEq
  simp only [fallbackColor, List.cons_append, List.nil_append,
    List.append_assoc] at hEq
  injection hEq with hhash htail
  injection htail with hc1 hrest
  exact hexDigitChar_ne_zero _ (by omega) (by omega) hc1

/-- C6: for every entity and value range, the color function returns
the fixed neutral fallback color exactly when the entity's effective
value is absent, or the range's min or max is absent, or min equals
max; in every non-degenerate case the interpolated color differs from
the fallback. -/
theorem getPriceColor_fallback_iff (range : Option ℚ × Option ℚ) (s : StorePoint) :
    getPriceColor range s = fallbackColor ↔
      (basePriceOf s = none ∨ range.1 = none ∨ range.2 = none ∨
        range.2 = range.1) := by
  obtain ⟨rmin, rmax⟩ := range
  rcases hb : basePriceOf s with _ | bp
  · simp [getPriceColor, hb]
  · rcases rmin with _ | mn
    · simp [getPriceColor, hb]
    · rcases rmax with _ | mx
      · simp [getPriceColor, hb]
      · rcases eq_or_ne mx mn with he | he
        · simp [getPriceColor, hb, he]
        · have hne := lerp_green_red_ne_fallback ((bp - mn) / (mx - mn))
          simp [getPriceColor, hb, he, hne]

/-- C7: for a fixed non-degenerate range, the interpolation parameter
is clamped into the unit interval for every input, is non-decreasing in
the value, and each of the three output channels equals the rounded
linear interpolation between the low and the high endpoint channel,
computed independently. -/
theorem colorMapper_monotone_clamped :
    (∀ t : ℚ, 0 ≤ clamp01 t ∧ clamp01 t ≤ 1) ∧
    (∀ mn mx v1 v2 : ℚ, mn < mx → v1 < v2 →
      clamp01 ((v1 - mn) / (mx - mn)) ≤ clamp01 ((v2 - mn) / (mx - mn))) ∧
    (∀ t : ℚ, lerpColor greenHex redHex t =
      some ('#' :: (toHexByte (jsRound ((46 : ℚ) + ((231 : ℚ) - 46) * clamp01 t)) ++
        toHexByte (jsRound ((204 : ℚ) + ((76 : ℚ) - 204) * clamp01 t)) ++
        toHexByte (jsRound ((113 : ℚ) + ((60 : ℚ) - 113) * clamp01 t))))) := by
  refine ⟨fun t => ⟨clamp01_nonneg t, clamp01_le_one t⟩, ?_,
    fun t => lerpColor_green_red t⟩
  intro mn mx v1 v2 hmm hv
  have h3 : (0 : ℚ) < mx - mn := by linarith
  have hle : (v1 - mn) / (mx - mn) ≤ (v2 - mn) / (mx - mn) :=
    (div_le_div_iff_of_pos_right h3).mpr (by linarith)
  exact max_le_max le_rfl (min_le_min le_rfl hle)

/-- Closed instance of colorMapper_monotone_clamped: monotonicity at
the range 0..2 with values 1 and 2. -/
theorem colorMapper_monotone_clamped_witness :
    clamp01 (((1 : ℚ) - 0) / ((2 : ℚ) - 0)) ≤
      clamp01 (((2 : ℚ) - 0) / ((2 : ℚ) - 0)) :=
  colorMapper_monotone_clamped.2.1 0 2 1 2 (by decide) (by decide)

/-! Grid-cell size and key (clustered mode). -/

/-- Example entity at (40.70, -74.00) from the spec's grid example. -/
def exNY1 : StorePoint := exStore "ny1" (some (407 / 10)) (some (-74)) none none

/-- Example entity at (40.71, -74.01) from the spec's grid example. -/
def exNY2 : StorePoint :=
  exStore "ny2" (some (4071 / 100)) (some (-7401 / 100)) none none

/-- C4: in clustered mode the grid cell size is the step function 6 for
zoom at most 4, 3.5 up to 7, and 1.5 beyond; the grid-cell key of an
entity is the pair of its coordinates divided by the cell size, rounded,
scaled back and formatted to two decimals; and the two example entities
at (40.70, -74.00) and (40.71, -74.01) land in one common cluster at
zoom 3. -/
theorem gridSize_cellKey_spec :
    (∀ zoom : ℤ, zoom ≤ 4 → gridSizeFor zoom = 6) ∧
    (∀ zoom : ℤ, 4 < zoom → zoom ≤ 7 → gridSizeFor zoom = 7 / 2) ∧
    (∀ zoom : ℤ, 7 < zoom → gridSizeFor zoom = 3 / 2) ∧
    (∀ g lat lng : ℚ, cellKey g lat lng =
      (fix2 ((jsRound (lat / g) : ℚ) * g), fix2 ((jsRound (lng / g) : ℚ) * g))) ∧
    ((classify [exNY1, exNY2] 3).clusters.map Cluster.stores = [[exNY1, exNY2]] ∧
      (classify [exNY1, exNY2] 3).individualPoints = []) := by
  refine ⟨?_, ?_, ?_, fun g lat lng => rfl, ?_⟩
  · intro z h
    rw [gridSizeFor, if_pos h]
  · intro z h4 h7
    rw [gridSizeFor, if_neg (by omega), if_pos h7]
  · intro z h7
    rw [gridSizeFor, if_neg (by omega), if_neg (by omega)]
  · have h1 : validPoints [exNY1, exNY2] = [exNY1, exNY2] := rfl
    have hg : gridSizeFor 3 = 6 := by rw [gridSizeFor, if_pos (by decide)]
    have hk1 : cellKey 6 (latOf exNY1) (lngOf exNY1) = (4200, -7200) := by
      norm_num [cellKey, fix2, jsRound, latOf, lngOf, exNY1, exStore]
    have hk2 : cellKey 6 (latOf exNY2) (lngOf exNY2) = (4200, -7200) := by
      norm_num [cellKey, fix2, jsRound, latOf, lngOf, exNY2, exStore]
    have hcl := classify_eq_clustered [exNY1, exNY2] 3 (by decide) (by decide)
    rw [h1, hg] at hcl
    rw [hcl]
    refine ⟨?_, rfl⟩
    have hbuild : (buildClusterMap 6 [exNY1, exNY2]).map (fun e => e.2.stores) =
        [[exNY1, exNY2]] := by
      simp only [buildClusterMap, List.foldl_cons, List.foldl_nil, hk1, hk2]
      simp [addToClusterMap]
    simpa [List.map_map, Function.comp] using hbuild

/-- Closed instance of gridSize_cellKey_spec: the step function at the
three sample zooms 3, 6 and 9. -/
theorem gridSize_cellKey_spec_witness :
    gridSizeFor 3 = 6 ∧ gridSizeFor 6 = 7 / 2 ∧ gridSizeFor 9 = 3 / 2 :=
  ⟨gridSize_cellKey_spec.1 3 (by decide),
   gridSize_cellKey_spec.2.1 6 (by decide) (by decide),
   gridSize_cellKey_spec.2.2.1 9 (by decide)⟩

/-! Counts-map semantics: the insertion-ordered association list built
by bumpCount realizes the occurrence-count function of the value
list. -/

/-- Entry of the counts map at a key, as an optional count. -/
def entryFor (m : List (ℚ × ℕ)) (p : ℚ) : Option ℕ :=
  (m.find? fun e => e.1 = p).map Prod.snd

theorem entryFor_bumpCount (m : List (ℚ × ℕ)) (a p : ℚ) :
    entryFor (bumpCount m a) p =
      if p = a then some ((entryFor m a).getD 0 + 1) else entryFor m p := by
  induction m with
  | nil =>
    by_cases hp : p = a
    · subst hp
      simp [bumpCount, entryFor, List.find?]
    · simp [bumpCount, entryFor, List.find?, hp, Ne.symm hp]
  | cons hd rest ih =>
    obtain ⟨k, c⟩ := hd
    by_cases hk : k = a
    · subst hk
      simp only [bumpCount, if_pos rfl]
      by_cases hp : p = k
      · subst hp
        simp [entryFor, List.find?]
      · simp [entryFor, List.find?, Ne.symm hp, hp]
    · simp only [bumpCount, if_neg hk]
      by_cases hp : p = k
      · subst hp
        simp [entryFor, List.find?, hk]
      · have h1 : entryFor ((k, c) :: bumpCount rest a) p =
            entryFor (bumpCount rest a) p := by
          simp [entryFor, List.find?, Ne.symm hp]
        have h2 : entryFor ((k, c) :: rest) a = entryFor rest a := by
          simp [entryFor, List.find?, hk]
        have h3 : entryFor ((k, c) :: rest) p = entryFor rest p := by
          simp [entryFor, List.find?, Ne.symm hp]
        rw [h1, h2, h3, ih]

theorem entryFor_foldl_bumpCount (l : List ℚ) (p : ℚ) :
    entryFor (l.foldl bumpCount []) p =
      if p ∈ l then some (l.count p) else none := by
  induction l using List.reverseRecOn with
  | nil => simp [entryFor, List.find?]
  | append_singleton l a ih =>
    rw [List.foldl_append, List.foldl_cons, List.foldl_nil, entryFor_bumpCount]
    by_cases hp : p = a
    · subst hp
      rw [if_pos rfl, ih]
      by_cases hmem : p ∈ l
      · simp [hmem, List.count_append]
      · simp [hmem, List.count_append, List.count_eq_zero.mpr hmem]
    · rw [if_neg hp, ih]
      by_cases hmem : p ∈ l
      · simp [hmem, hp, List.count_append]
      · simp [hmem, hp, List.count_append]

theorem mem_iff_entryFor (m : List (ℚ × ℕ)) (hnd : (m.map Prod.fst).Nodup)
    (p : ℚ) (c : ℕ) : (p, c) ∈ m ↔ entryFor m p = some c := by
  induction m with
  | nil => simp [entryFor, List.find?]
  | cons hd rest ih =>
    obtain ⟨k, d⟩ := hd
    simp only [List.map_cons, List.nodup_cons] at hnd
    by_cases hp : p = k
    · subst hp
      simp only [entryFor, List.find?, decide_True, Option.map_some']
      constructor
      · intro hmem
        rcases List.mem_cons.mp hmem with h1 | h2
        · simp only [Prod.mk.injEq] at h1
          simp [h1.2]
        · exact absurd (List.mem_map_of_mem Prod.fst h2) hnd.1
      · intro h
        simp only [Option.some.injEq] at h
        exact h ▸ List.mem_cons_self _ _
    · simp only [entryFor, List.find?,
        show (decide (k = p)) = false from by simp [Ne.symm hp]]
      rw [List.mem_cons]
      simp only [Prod.mk.injEq, hp, false_and, false_or]
      exact ih hnd.2

theorem keys_bumpCount (m : List (ℚ × ℕ)) (a : ℚ) :
    (bumpCount m a).map Prod.fst =
      if a ∈ m.map Prod.fst then m.map Prod.fst
      else m.map Prod.fst ++ [a] := by
  induction m with
  | nil => simp [bumpCount]
  | cons hd rest ih =>
    obtain ⟨k, c⟩ := hd
    by_cases hk : k = a
    · subst hk
      simp [bumpCount]
    · simp only [bumpCount, if_neg hk, List.map_cons, ih]
      by_cases hmem : a ∈ rest.map Prod.fst
      · simp [hmem, hk, Ne.symm hk]
      · simp [hmem, hk, Ne.symm hk]

theorem keys_foldl_bumpCount (l : List ℚ) :
    ((l.foldl bumpCount []).map Prod.fst).Nodup ∧
    (∀ p, p ∈ (l.foldl bumpCount []).map Prod.fst ↔ p ∈ l) := by
  induction l using List.reverseRecOn with
  | nil => simp
  | append_singleton l a ih =>
    rw [List.foldl_append, List.foldl_cons, List.foldl_nil, keys_bumpCount]
    by_cases hmem : a ∈ (l.foldl bumpCount []).map Prod.fst
    · rw [if_pos hmem]
      refine ⟨ih.1, fun p => ?_⟩
      rw [ih.2 p, List.mem_append, List.mem_singleton]
      constructor
      · exact Or.inl
      · rintro (h | rfl)
        · exact h
        · exact (ih.2 p).mp hmem
    · rw [if_neg hmem]
      constructor
      · rw [List.nodup_append]
        exact ⟨ih.1, List.nodup_singleton a,
          by simpa [List.disjoint_singleton] using hmem⟩
      · intro p
        rw [List.mem_append, List.mem_singleton, List.mem_append,
          List.mem_singleton, ih.2 p]

/-! Sorting facts for the stats output. -/

instance : IsTotal (ℚ × ℕ) (fun a b => a.1 ≤ b.1) :=
  ⟨fun a b => le_total a.1 b.1⟩

instance : IsTrans (ℚ × ℕ) (fun a b => a.1 ≤ b.1) :=
  ⟨fun _ _ _ h1 h2 => le_trans h1 h2⟩

theorem sortAsc_perm (l : List ℚ) : (sortAsc l).Perm l :=
  List.perm_insertionSort _ l

theorem sortAsc_sorted (l : List ℚ) : (sortAsc l).Sorted (· ≤ ·) :=
  List.sorted_insertionSort _ l

theorem sortPairsAsc_perm (l : List (ℚ × ℕ)) : (sortPairsAsc l).Perm l :=
  List.perm_insertionSort _ l

theorem sortPairsAsc_sorted (l : List (ℚ × ℕ)) :
    (sortPairsAsc l).Sorted (fun a b => a.1 ≤ b.1) :=
  List.sorted_insertionSort _ l

/-- Example store list whose effective values are 1.00, 1.00, 2.00,
3.00 (the spec's StatsEngine example). -/
def exC9 : List StorePoint :=
  [exStore "p1" none none (some 1) none,
   exStore "p2" none none (some 1) none,
   exStore "p3" none none (some 2) none,
   exStore "p4" none none (some 3) none]

/-- C9: the stats computation aggregates the 2-decimal-rounded
effective values: the count and the mean are taken over the raw rounded
value list (not the distribution), the median is the middle element of
the ascending sort for an odd count and the mean of the two central
elements for an even count, the distribution pairs each distinct
rounded value with its occurrence count sorted ascending by value; and
on the input values 1.00, 1.00, 2.00, 3.00 the result is min 1, median
1.5, max 3, mean 1.75, count 4, distribution ((1,2),(2,1),(3,1)). -/
theorem priceStats_aggregation :
    (∀ (sel : String) (stores : List StorePoint) (st : PriceStats),
      priceStats sel stores = some st →
        st.count = (roundedValues stores).length ∧
        st.mean = (roundedValues stores).sum / ((roundedValues stores).length : ℚ) ∧
        (sortAsc (roundedValues stores)).Sorted (· ≤ ·) ∧
        (sortAsc (roundedValues stores)).Perm (roundedValues stores) ∧
        st.median =
          (if (sortAsc (roundedValues stores)).length % 2 = 1 then
            (sortAsc (roundedValues stores)).getD
              ((sortAsc (roundedValues stores)).length / 2) 0
          else
            ((sortAsc (roundedValues stores)).getD
                ((sortAsc (roundedValues stores)).length / 2 - 1) 0 +
              (sortAsc (roundedValues stores)).getD
                ((sortAsc (roundedValues stores)).length / 2) 0) / 2) ∧
        (st.distribution.map Prod.fst).Sorted (· ≤ ·) ∧
        (st.distribution.map Prod.fst).Nodup ∧
        (∀ pc ∈ st.distribution,
          pc.1 ∈ roundedValues stores ∧
            pc.2 = (roundedValues stores).count pc.1) ∧
        (∀ v ∈ roundedValues stores, v ∈ st.distribution.map Prod.fst)) ∧
    priceStats "upc" exC9 = some
      { min := 1, median := 3 / 2, max := 3, mean := 7 / 4, count := 4,
        distribution := [(1, 2), (2, 1), (3, 1)] } := by
  constructor
  · intro sel stores st h
    unfold priceStats at h
    by_cases hsel : sel = ""
    · rw [if_pos hsel] at h
      exact absurd h (by simp)
    · rw [if_neg hsel] at h
      by_cases hlen : (roundedValues stores).length = 0
      · rw [if_pos hlen] at h
        exact absurd h (by simp)
      · rw [if_neg hlen] at h
        obtain rfl := (Option.some_inj.mp h).symm
        refine ⟨(sortAsc_perm _).length_eq, ?_, sortAsc_sorted _, sortAsc_perm _,
          rfl, ?_, ?_, ?_, ?_⟩
        · show (sortAsc (roundedValues stores)).foldl (· + ·) 0 /
              ((sortAsc (roundedValues stores)).length : ℚ) = _
          rw [← List.sum_eq_foldl, (sortAsc_perm _).sum_eq,
            (sortAsc_perm _).length_eq]
        · exact List.Pairwise.map Prod.fst (fun a b hab => hab)
            (sortPairsAsc_sorted _)
        · have hperm := (sortPairsAsc_perm
            ((roundedValues stores).foldl bumpCount [])).map Prod.fst
          exact hperm.nodup_iff.mpr (keys_foldl_bumpCount (roundedValues stores)).1
        · intro pc hpc
          have hmem : pc ∈ (roundedValues stores).foldl bumpCount [] :=
            (sortPairsAsc_perm _).mem_iff.mp hpc
          obtain ⟨p, c⟩ := pc
          have hef := (mem_iff_entryFor _ (keys_foldl_bumpCount _).1 p c).mp hmem
          rw [entryFor_foldl_bumpCount] at hef
          by_cases hin : p ∈ roundedValues stores
          · rw [if_pos hin] at hef
            exact ⟨hin, (Option.some_inj.mp hef).symm⟩
          · rw [if_neg hin] at hef
            exact absurd hef (by simp)
        · intro v hv
          have hef : entryFor ((roundedValues stores).foldl bumpCount []) v =
              some ((roundedValues stores).count v) := by
            rw [entryFor_foldl_bumpCount, if_pos hv]
          have hmem := (mem_iff_entryFor _ (keys_foldl_bumpCount _).1 v _).mpr hef
          have hmem2 : (v, (roundedValues stores).count v) ∈
              sortPairsAsc ((roundedValues stores).foldl bumpCount []) :=
            (sortPairsAsc_perm _).mem_iff.mpr hmem
          exact List.mem_map_of_mem Prod.fst hmem2
  · have hval : roundedValues exC9 = [1, 1, 2, 3] := by
      norm_num [roundedValues, exC9, exStore, statsValue, round2, jsRound,
        List.filterMap]
    unfold priceStats
    rw [if_neg (by decide), hval]
    norm_num [sortAsc, sortPairsAsc, List.insertionSort, List.orderedInsert,
      bumpCount, List.getD, PriceStats.mk.injEq]

/-- Closed instance of priceStats_aggregation: the count of the example
result equals the length of the example's rounded value list. -/
theorem priceStats_aggregation_witness :
    ({ min := 1, median := 3 / 2, max := 3, mean := 7 / 4, count := 4,
       distribution := [(1, 2), (2, 1), (3, 1)] } : PriceStats).count =
      (roundedValues exC9).length :=
  (priceStats_aggregation.1 "upc" exC9 _ priceStats_aggregation.2).1

/-! Min and max of a value list: the spread-based foldl of priceRange
against the head and last element of the ascending sort of
priceStats. -/

theorem foldl_min_mem (l : List ℚ) : ∀ p : ℚ, l.foldl min p ∈ p :: l := by
  induction l with
  | nil => intro p; simp
  | cons x rest ih =>
    intro p
    simp only [List.foldl_cons]
    rcases List.mem_cons.mp (ih (min p x)) with h | h
    · rcases min_choice p x with hc | hc <;> rw [h, hc]
      · exact List.mem_cons_self _ _
      · exact List.mem_cons_of_mem _ (List.mem_cons_self _ _)
    · exact List.mem_cons_of_mem _ (List.mem_cons_of_mem _ h)

theorem foldl_min_le (l : List ℚ) : ∀ p x : ℚ, x ∈ p :: l → l.foldl min p ≤ x := by
  induction l with
  | nil =>
    intro p x hx
    simp only [List.mem_singleton] at hx
    simp [hx]
  | cons y rest ih =>
    intro p x hx
    simp only [List.foldl_cons]
    rcases List.mem_cons.mp hx with rfl | hx'
    · exact (ih (min x y) _ (List.mem_cons_self _ _)).trans (min_le_left x y)
    · rcases List.mem_cons.mp hx' with rfl | hx''
      · exact (ih (min p x) _ (List.mem_cons_self _ _)).trans (min_le_right p x)
      · exact ih (min p y) x (List.mem_cons_of_mem _ hx'')

theorem foldl_max_mem (l : List ℚ) : ∀ p : ℚ, l.foldl max p ∈ p :: l := by
  induction l with
  | nil => intro p; simp
  | cons x rest ih =>
    intro p
    simp only [List.foldl_cons]
    rcases List.mem_cons.mp (ih (max p x)) with h | h
    · rcases max_choice p x with hc | hc <;> rw [h, hc]
      · exact List.mem_cons_self _ _
      · exact List.mem_cons_of_mem _ (List.mem_cons_self _ _)
    · exact List.mem_cons_of_mem _ (List.mem_cons_of_mem _ h)

theorem le_foldl_max (l : List ℚ) : ∀ p x : ℚ, x ∈ p :: l → x ≤ l.foldl max p := by
  induction l with
  | nil =>
    intro p x hx
    simp only [List.mem_singleton] at hx
    simp [hx]
  | cons y rest ih =>
    intro p x hx
    simp only [List.foldl_cons]
    rcases List.mem_cons.mp hx with rfl | hx'
    · exact (le_max_left x y).trans (ih (max x y) _ (List.mem_cons_self _ _))
    · rcases List.mem_cons.mp hx' with rfl | hx''
      · exact (le_max_right p x).trans (ih (max p x) _ (List.mem_cons_self _ _))
      · exact ih (max p y) x (List.mem_cons_of_mem _ hx'')

theorem sorted_headD_le (l : List ℚ) (hs : l.Sorted (· ≤ ·)) :
    ∀ x ∈ l, l.headD 0 ≤ x := by
  cases l with
  | nil => simp
  | cons a t =>
    intro x hx
    rcases List.mem_cons.mp hx with rfl | hx'
    · simp
    · exact (List.sorted_cons.mp hs).1 x hx'

theorem getLastD_mem_cons (t : List ℚ) : ∀ b d : ℚ, (b :: t).getLastD d ∈ b :: t := by
  induction t with
  | nil => intro b d; simp
  | cons c t3 ih =>
    intro b d
    rw [List.getLastD_cons]
    exact List.mem_cons_of_mem _ (ih c b)

theorem sorted_le_getLastD (l : List ℚ) :
    l.Sorted (· ≤ ·) → ∀ x ∈ l, x ≤ l.getLastD 0 := by
  induction l with
  | nil => simp
  | cons a t ih =>
    intro hs x hx
    cases t with
    | nil =>
      simp only [List.mem_singleton] at hx
      simp [hx]
    | cons b t2 =>
      rw [List.getLastD_cons]
      have htail : (b :: t2).getLastD a = (b :: t2).getLastD 0 := rfl
      rcases List.mem_cons.mp hx with rfl | hx'
      · exact (List.sorted_cons.mp hs).1 _ (getLastD_mem_cons t2 b x)
      · rw [htail]
        exact ih (List.sorted_cons.mp hs).2 x hx'

theorem sortAsc_ne_nil (p : ℚ) (rest : List ℚ) : sortAsc (p :: rest) ≠ [] := by
  intro h
  have hperm := sortAsc_perm (p :: rest)
  rw [h] at hperm
  exact List.cons_ne_nil p rest hperm.nil_eq.symm

theorem sortAsc_headD_eq_foldl_min (p : ℚ) (rest : List ℚ) :
    (sortAsc (p :: rest)).headD 0 = rest.foldl min p := by
  have hperm := sortAsc_perm (p :: rest)
  have hsort := sortAsc_sorted (p :: rest)
  apply le_antisymm
  · exact sorted_headD_le _ hsort _ (hperm.mem_iff.mpr (foldl_min_mem rest p))
  · have hh : (sortAsc (p :: rest)).headD 0 ∈ sortAsc (p :: rest) := by
      cases hl : sortAsc (p :: rest) with
      | nil => exact absurd hl (sortAsc_ne_nil p rest)
      | cons a t => simp
    exact foldl_min_le rest p _ (hperm.mem_iff.mp hh)

theorem sortAsc_getLastD_eq_foldl_max (p : ℚ) (rest : List ℚ) :
    (sortAsc (p :: rest)).getLastD 0 = rest.foldl max p := by
  have hperm := sortAsc_perm (p :: rest)
  have hsort := sortAsc_sorted (p :: rest)
  apply le_antisymm
  · have hh : (sortAsc (p :: rest)).getLastD 0 ∈ sortAsc (p :: rest) := by
      cases hl : sortAsc (p :: rest) with
      | nil => exact absurd hl (sortAsc_ne_nil p rest)
      | cons a t => exact getLastD_mem_cons t a 0
    exact le_foldl_max rest p _ (hperm.mem_iff.mp hh)
  · exact sorted_le_getLastD _ hsort _ (hperm.mem_iff.mpr (foldl_max_mem rest p))

/-- colorT is exactly the clamped interpolation parameter at which
getPriceColor renders its entity: whenever colorT yields a parameter t,
getPriceColor returns the green-to-red channels rounded at t. -/
theorem getPriceColor_renders_colorT (range : Option ℚ × Option ℚ)
    (s : StorePoint) (t : ℚ) (h : colorT range s = some t) :
    getPriceColor range s =
      '#' :: (toHexByte (jsRound ((46 : ℚ) + ((231 : ℚ) - 46) * t)) ++
        toHexByte (jsRound ((204 : ℚ) + ((76 : ℚ) - 204) * t)) ++
        toHexByte (jsRound ((113 : ℚ) + ((60 : ℚ) - 113) * t))) := by
  obtain ⟨rmin, rmax⟩ := range
  rcases hb : basePriceOf s with _ | bp
  · simp [colorT, hb] at h
  · rcases rmin with _ | mn
    · simp [colorT, hb] at h
    · rcases rmax with _ | mx
      · simp [colorT, hb] at h
      · rcases eq_or_ne mx mn with he | he
        · simp [colorT, hb, he] at h
        · simp only [colorT, hb, if_neg he] at h
          obtain rfl := Option.some_inj.mp h
          simp only [getPriceColor, hb, if_neg he]
          rw [lerpColor_green_red]
          rfl

/-- Counterexample entity without coordinates but with a price 1. -/
def exCexA : StorePoint := exStore "ca" none none (some 1) none

/-- Counterexample entity at (40, -74) with price 2. -/
def exCexB : StorePoint := exStore "cb" (some 40) (some (-74)) (some 2) none

/-- Counterexample entity at (41, -75) with price 3. -/
def exCexC : StorePoint := exStore "cc" (some 41) (some (-75)) (some 3) none

/-- Counterexample scope: one coordinate-less priced store plus two
coordinate-valid priced stores. -/
def exCex : List StorePoint := [exCexA, exCexB, exCexC]

/-- The stats record priceStats produces on the counterexample scope. -/
def exCexStats : PriceStats :=
  { min := 1, median := 2, max := 3, mean := 2, count := 3,
    distribution := [(1, 1), (2, 1), (3, 1)] }

/-- C10 counterexample: in the scope consisting of exCexA (no
coordinates, value 1.00), exCexB (valid coordinates, value 2.00) and
exCexC (valid coordinates, value 3.00), the stats min/max are 1 and 3
while the color range min/max are 2 and 3 (the coordinate-less store is
excluded from the map's points but not from the stats); the entity
exCexB has effective value 2, equal to the value of the distribution
bucket (2, 1), yet its gradient-bar marker sits at normalized position
1/2 while its color parameter t is 0. -/
theorem marker_vs_color_counterexample :
    storesForMap "u" exCex = exCex ∧
    priceStats "u" (storesForMap "u" exCex) = some exCexStats ∧
    (2, 1) ∈ exCexStats.distribution ∧
    statsValue exCexB = some 2 ∧
    markerT exCexStats 2 = some (1 / 2) ∧
    colorT (priceRange (validPoints (storesForMap "u" exCex))) exCexB = some 0 ∧
    (1 : ℚ) / 2 ≠ 0 := by
  have hsfm : storesForMap "u" exCex = exCex := by
    rw [storesForMap, if_neg (by decide)]
    rfl
  have hval : roundedValues exCex = [1, 2, 3] := by
    norm_num [roundedValues, exCex, exCexA, exCexB, exCexC, exStore, statsValue,
      round2, jsRound, List.filterMap]
  have hps : priceStats "u" exCex = some exCexStats := by
    unfold priceStats
    rw [if_neg (by decide), hval]
    norm_num [sortAsc, sortPairsAsc, List.insertionSort, List.orderedInsert,
      bumpCount, List.getD, exCexStats, PriceStats.mk.injEq]
  have hpr : priceRange (validPoints exCex) = (some 2, some 3) := by
    have hvp : validPoints exCex = [exCexB, exCexC] := rfl
    rw [hvp]
    norm_num [priceRange, rangeValue, exCexB, exCexC, exStore, List.filterMap]
  refine ⟨hsfm, by rw [hsfm]; exact hps, by decide, rfl, ?_, ?_, by norm_num⟩
  · norm_num [markerT, exCexStats, clamp01]
  · rw [hsfm, hpr]
    norm_num [colorT, basePriceOf, exCexB, exStore, clamp01]

/-- C10 amended: the gradient-bar marker and the color parameter use
the same clamped normalization formula, but the marker normalizes with
priceStats's min and max (rounded values over every in-scope entity)
while the color normalizes with priceRange's min and max (raw values
over the coordinate-valid entities only).  When every in-scope entity
has non-null coordinates and every in-scope effective value is exact at
two decimals, the two coincide: for any entity whose effective value
equals a bucket's value, the marker position equals the t used to color
that entity. -/
theorem marker_matches_color_of_uniform_scope (sel : String)
    (sws : List StorePoint) (st : PriceStats)
    (hcoords : ∀ s ∈ storesForMap sel sws,
      s.latitude.isSome ∧ s.longitude.isSome)
    (hstable : ∀ s ∈ storesForMap sel sws, ∀ v, statsValue s = some v →
      round2 v = v)
    (hps : priceStats sel (storesForMap sel sws) = some st)
    (s : StorePoint) (hs : s ∈ storesForMap sel sws) (v : ℚ)
    (hv : statsValue s = some v) :
    markerT st v =
      colorT (priceRange (validPoints (storesForMap sel sws))) s := by
  have hvalid : validPoints (storesForMap sel sws) = storesForMap sel sws :=
    List.filter_eq_self.mpr (fun a ha => by
      obtain ⟨h1, h2⟩ := hcoords a ha
      simp [h1, h2])
  have hvals : roundedValues (storesForMap sel sws) =
      (storesForMap sel sws).filterMap rangeValue := by
    unfold roundedValues
    refine List.filterMap_congr ?_
    intro a ha
    show (statsValue a).map round2 = statsValue a
    rcases hsv : statsValue a with _ | w
    · rfl
    · simp [hstable a ha w hsv]
  unfold priceStats at hps
  by_cases hsel : sel = ""
  · rw [if_pos hsel] at hps
    exact absurd hps (by simp)
  · rw [if_neg hsel] at hps
    by_cases hlen : (roundedValues (storesForMap sel sws)).length = 0
    · rw [if_pos hlen] at hps
      exact absurd hps (by simp)
    · rw [if_neg hlen] at hps
      obtain rfl := (Option.some_inj.mp hps).symm
      cases hVl : roundedValues (storesForMap sel sws) with
      | nil =>
        rw [hVl] at hlen
        simp at hlen
      | cons p rest =>
        have hpr : priceRange (validPoints (storesForMap sel sws)) =
            (some (rest.foldl min p), some (rest.foldl max p)) := by
          rw [hvalid]
          unfold priceRange
          rw [← hvals, hVl]
        have hbp : basePriceOf s = some v := hv
        rw [hpr]
        simp only [markerT, colorT, hbp]
        rw [sortAsc_headD_eq_foldl_min, sortAsc_getLastD_eq_foldl_max]

/-- Closed instance of marker_matches_color_of_uniform_scope: in a
scope of two coordinate-valid stores with 2-decimal-exact values 2 and
3, the marker of the bucket at value 2 sits exactly at the color
parameter of the store whose effective value is 2. -/
theorem marker_matches_color_witness :
    markerT
        { min := 2, median := 5 / 2, max := 3, mean := 5 / 2, count := 2,
          distribution := [(2, 1), (3, 1)] } 2 =
      colorT (priceRange (validPoints (storesForMap "u" [exCexB, exCexC])))
        exCexB := by
  refine marker_matches_color_of_uniform_scope "u" [exCexB, exCexC] _
    ?_ ?_ ?_ exCexB ?_ 2 rfl
  · decide
  · intro s hs v hv
    have hsf : storesForMap "u" [exCexB, exCexC] = [exCexB, exCexC] := rfl
    rw [hsf] at hs
    rcases List.mem_cons.mp hs with rfl | hs2
    · rw [show statsValue exCexB = some 2 from rfl] at hv
      obtain rfl := Option.some_inj.mp hv
      norm_num [round2, jsRound]
    · rcases List.mem_cons.mp hs2 with rfl | hs3
      · rw [show statsValue exCexC = some 3 from rfl] at hv
        obtain rfl := Option.some_inj.mp hv
        norm_num [round2, jsRound]
      · simp at hs3
  · have hsf : storesForMap "u" [exCexB, exCexC] = [exCexB, exCexC] := rfl
    rw [hsf]
    have hval2 : roundedValues [exCexB, exCexC] = [2, 3] := by
      norm_num [roundedValues, exCexB, exCexC, exStore, statsValue, round2,
        jsRound, List.filterMap]
    unfold priceStats
    rw [if_neg (by decide), hval2]
    norm_num [sortAsc, sortPairsAsc, List.insertionSort, List.orderedInsert,
      bumpCount, List.getD, PriceStats.mk.injEq]
  · decide
